import Mathlib

/-!
Verification of the SAP HANA check (`datadog_checks/sap_hana/sap_hana.py`) and
the fluentd check's timeout resolution, shallowly embedded in Lean.

Python strings are modelled as `String` (or `List Char` where character-level
reasoning is needed), Python numbers as `ℚ`, Python `None` via `Option`, and
Python dicts as insertion-ordered association lists.
-/

namespace SapHana

/-- Python dict assignment `d[k] = v` on an insertion-ordered association
list: an existing key is updated in place, a new key is appended at the end
(CPython dicts preserve insertion order). -/
def dictSet {K V : Type} [DecidableEq K] : List (K × V) → K → V → List (K × V)
  | [], k, v => [(k, v)]
  | (k', v') :: rest, k, v =>
    if k' = k then (k', v) :: rest else (k', v') :: dictSet rest k v

/-- Python dict lookup `d[k]` (as an `Option`, `none` when the key is absent). -/
def dictGet {K V : Type} [DecidableEq K] : List (K × V) → K → Option V
  | [], _ => none
  | (k', v') :: rest, k => if k' = k then some v' else dictGet rest k

/-- The inner loop of `SapHanaCheck.iter_rows`:
`for column, value in zip(query.fields, row): result[column] = value`.
`zip` stops at the shorter sequence, so a row with fewer positional values
than there are field names leaves the remaining keys of `result` untouched. -/
def overwriteRow {V : Type} (fields : List String) (row : List V)
    (result : List (String × V)) : List (String × V) :=
  (fields.zip row).foldl (fun r p => dictSet r p.1 p.2) result

/-- The per-batch loop of `SapHanaCheck.iter_rows`: for each row of the batch,
overwrite the reused `result` dict and yield its current contents. Returns the
final state of `result` together with the yielded mappings, in order. -/
def processBatch {V : Type} (fields : List String) :
    List (String × V) → List (List V) → List (String × V) × List (List (String × V))
  | result, [] => (result, [])
  | result, row :: rest =>
    let result' := overwriteRow fields row result
    let next := processBatch fields result' rest
    (next.1, result' :: next.2)

/-- The fetch loop of `SapHanaCheck.iter_rows`: `cursor.fetchmany(row_limit)`
returns the next `row_limit` rows of the pending result set; the loop runs
until a fetched batch is empty. The cursor is modelled as the list of pending
rows; `fuel` is an upper bound on the number of loop iterations, used only to
make the recursion structural (any `fuel > remaining.length` is enough, since
every non-final iteration consumes at least one row). -/
def iterRowsAux {V : Type} (fields : List String) (limit : Nat) :
    Nat → List (String × V) → List (List V) → List (List (String × V))
  | 0, _, _ => []
  | fuel + 1, result, remaining =>
    let rows := remaining.take limit
    if rows.isEmpty then []
    else
      let pr := processBatch fields result rows
      pr.2 ++ iterRowsAux fields limit fuel pr.1 (remaining.drop limit)

/-- `SapHanaCheck.iter_rows(query)` for a query descriptor with field names
`fields`, a configured `row_limit` of `limit`, and a result set `rows`:
the sequence of field-name-to-value mappings yielded, in order. The reused
`result` dict starts out empty. -/
def iterRows {V : Type} (fields : List String) (limit : Nat)
    (rows : List (List V)) : List (List (String × V)) :=
  iterRowsAux fields limit (rows.length + 1) [] rows

/-- Reference scan describing what `iter_rows` yields row by row: the reused
dict is overwritten with each successive row and its state after each
overwrite is the yielded mapping. Batching does not appear; the bridge to
`iterRows` is proved below. -/
def scanRows {V : Type} (fields : List String) :
    List (String × V) → List (List V) → List (List (String × V))
  | _, [] => []
  | result, row :: rest =>
    let result' := overwriteRow fields row result
    result' :: scanRows fields result' rest

/-- The sequence of batches returned by the successive `fetchmany(limit)`
calls of `iter_rows`, excluding the final empty batch that stops the loop.
Same fuel device as `iterRowsAux`. -/
def fetchChunksAux {V : Type} (limit : Nat) :
    Nat → List (List V) → List (List (List V))
  | 0, _ => []
  | fuel + 1, remaining =>
    let rows := remaining.take limit
    if rows.isEmpty then []
    else rows :: fetchChunksAux limit fuel (remaining.drop limit)

/-- The batches fetched by `iter_rows` over result set `rows` with row limit
`limit`. -/
def fetchBatches {V : Type} (limit : Nat) (rows : List (List V)) :
    List (List (List V)) :=
  fetchChunksAux limit (rows.length + 1) rows

/-- Python `s.replace(old, new)` for nonempty `old`, on `List Char`: scan left
to right, replacing non-overlapping occurrences greedily. The `Nat` argument
is the number of characters of a just-replaced occurrence still to skip. -/
def pyReplaceAux (old new : List Char) : List Char → Nat → List Char
  | [], _ => []
  | _ :: rest, k + 1 => pyReplaceAux old new rest k
  | c :: rest, 0 =>
    if old <+: (c :: rest) then new ++ pyReplaceAux old new rest (old.length - 1)
    else c :: pyReplaceAux old new rest 0

/-- Python `s.replace(old, new)`: for empty `old`, CPython inserts `new`
before every character and at the end; otherwise all non-overlapping
occurrences of `old` are replaced left to right. -/
def pyReplace (s old new : List Char) : List Char :=
  if old.isEmpty then new ++ s.flatMap (fun c => c :: new)
  else pyReplaceAux old new s 0

/-- The redaction in `SapHanaCheck.get_connection`:
`str(e).replace(self._password, '*' * len(self._password))`. The redacted
text is both logged and attached to the CRITICAL `can_connect` service
check. -/
def redactPassword (password error : List Char) : List Char :=
  pyReplace error password (List.replicate password.length '*')

/-- Python `s or t` on optional strings (`None` is falsy, so is the empty
string; any other string is truthy and wins). -/
def pyOrStr (a b : Option String) : Option String :=
  match a with
  | some s => if s = "" then b else some s
  | none => b

/-- Python `s or t` where the fallback is a plain (truthy) string, as in
`memory['db_name'] or 'none'`. -/
def pyOrStrD (a : Option String) (d : String) : String :=
  match a with
  | some s => if s = "" then d else s
  | none => d

/-- Python `str.lower` restricted to ASCII letters (the status strings this
check lowercases are ASCII). -/
def lowerChar (c : Char) : Char :=
  if 'A' ≤ c ∧ c ≤ 'Z' then Char.ofNat (c.toNat + 32) else c

/-- Python `s.lower()` on the embedded strings. -/
def pyLower (s : String) : String :=
  ⟨s.data.map lowerChar⟩

/-- The per-instance state of `SapHanaCheck` that the metric mappers read:
the `use_hana_hostnames` flag, the cached master hostname
(`self._master_hostname`, `None` until cached), and the static instance tags
`self._tags`. -/
structure Ctx where
  useHanaHostnames : Bool
  masterHostname : Option String
  tags : List String
deriving DecidableEq

/-- One emitted gauge: `self.gauge(name, value, tags=tags, hostname=host)`. -/
structure Gauge where
  name : String
  value : ℚ
  tags : List String
  hostname : Option String
deriving DecidableEq

/-- `SapHanaCheck.get_hana_hostname(hostname=None)`: when
`self._use_hana_hostnames` is set, return `hostname or self._master_hostname`;
otherwise fall through and return `None`. -/
def getHanaHostname (ctx : Ctx) (hostname : Option String) : Option String :=
  if ctx.useHanaHostnames then pyOrStr hostname ctx.masterHostname else none

/-- One row of the `MasterDatabase` query, with the dict keys of the source as
field names. Timestamps are modelled as rational seconds, so that
`(a - b).total_seconds()` becomes plain subtraction. -/
structure MasterRow where
  db_name : String
  usage : String
  host : String
  current_time : ℚ
  start_time : ℚ
deriving DecidableEq

/-- One iteration of the loop in `SapHanaCheck.query_master_database`: cache
the row's host as `self._master_hostname` when `use_hana_hostnames` is set,
then emit the `uptime` gauge (the hostname resolution runs after the cache
update). Returns the updated state and the gauge. -/
def queryMasterDatabaseStep (ctx : Ctx) (master : MasterRow) : Ctx × Gauge :=
  let tags := ["db:" ++ master.db_name, "usage:" ++ master.usage] ++ ctx.tags
  let masterHostname := master.host
  let ctx' :=
    if ctx.useHanaHostnames then { ctx with masterHostname := some masterHostname } else ctx
  (ctx',
   ⟨"uptime", master.current_time - master.start_time, tags,
    getHanaHostname ctx' (some masterHostname)⟩)

/-- `SapHanaCheck.query_master_database`: fold the per-row step over the
result rows, returning the final state and the emitted gauges in order. -/
def queryMasterDatabase : Ctx → List MasterRow → Ctx × List Gauge
  | ctx, [] => (ctx, [])
  | ctx, master :: rest =>
    let st := queryMasterDatabaseStep ctx master
    let next := queryMasterDatabase st.1 rest
    (next.1, st.2 :: next.2)

/-- One row of the `GlobalSystemLicenses` query. `expiration_date` is `None`
for licenses without one. -/
structure LicenseRow where
  sid : String
  product_name : String
  expiration_date : Option ℚ
  start_date : ℚ
  limit : ℚ
  usage : ℚ
deriving DecidableEq

/-- The body of the loop in `SapHanaCheck.query_licenses` for one row: the
five gauges emitted, in source order. -/
def queryLicensesRow (ctx : Ctx) (hana_license : LicenseRow) : List Gauge :=
  let tags :=
    ["sid:" ++ hana_license.sid, "product_name:" ++ hana_license.product_name] ++ ctx.tags
  let host := getHanaHostname ctx none
  let expiration :=
    match hana_license.expiration_date with
    | some d => d - hana_license.start_date
    | none => -1
  let total := hana_license.limit
  let used := hana_license.usage
  let usable := total - used
  let utilized := if total ≠ 0 then used / total * 100 else 0
  [⟨"license.expiration", expiration, tags, host⟩,
   ⟨"license.size", total, tags, host⟩,
   ⟨"license.usage", used, tags, host⟩,
   ⟨"license.usable", usable, tags, host⟩,
   ⟨"license.utilized", utilized, tags, host⟩]

/-- `SapHanaCheck.query_licenses` over a whole result set. -/
def queryLicenses (ctx : Ctx) (rows : List LicenseRow) : List Gauge :=
  rows.flatMap (queryLicensesRow ctx)

/-- One row of the `GlobalSystemDiskUsage` query. -/
structure DiskRow where
  db_name : String
  resource : String
  host : String
  total : ℚ
  used : ℚ
deriving DecidableEq

/-- The body of the loop in `SapHanaCheck.query_disk_usage` for one row:
`used = max(0, disk['used'])` is clamped before `usable` and `utilized` are
derived from it. -/
def queryDiskUsageRow (ctx : Ctx) (disk : DiskRow) : List Gauge :=
  let tags := ["db:" ++ disk.db_name, "disk_resource:" ++ disk.resource] ++ ctx.tags
  let host := getHanaHostname ctx (some disk.host)
  let total := disk.total
  let used := max 0 disk.used
  let usable := total - used
  let utilized := if total ≠ 0 then used / total * 100 else 0
  [⟨"disk.size", total, tags, host⟩,
   ⟨"disk.used", used, tags, host⟩,
   ⟨"disk.usable", usable, tags, host⟩,
   ⟨"disk.utilized", utilized, tags, host⟩]

/-- `SapHanaCheck.query_disk_usage` over a whole result set. -/
def queryDiskUsage (ctx : Ctx) (rows : List DiskRow) : List Gauge :=
  rows.flatMap (queryDiskUsageRow ctx)

/-- One row of the `GlobalSystemServiceMemory` query. `db_name` can be `NULL`
(the source writes `memory['db_name'] or 'none'`). -/
structure ServiceMemoryRow where
  db_name : Option String
  port : Int
  service : String
  host : String
  physical : ℚ
  virtual : ℚ
  total : ℚ
  used : ℚ
  heap_total : ℚ
  heap_used : ℚ
  shared_total : ℚ
  shared_used : ℚ
  compactors_total : ℚ
  compactors_usable : ℚ
deriving DecidableEq

/-- The body of the loop in `SapHanaCheck.query_service_memory` for one row:
the sixteen gauges emitted, in source order (overall, heap, shared,
compactor). Note the compactor block derives `used = total - usable` from the
row's `compactors_usable`, the reverse of the other blocks. -/
def queryServiceMemoryRow (ctx : Ctx) (memory : ServiceMemoryRow) : List Gauge :=
  let tags :=
    ["db:" ++ pyOrStrD memory.db_name "none",
     "hana_port:" ++ toString memory.port,
     "service_name:" ++ memory.service] ++ ctx.tags
  let host := getHanaHostname ctx (some memory.host)
  let total := memory.total
  let used := memory.used
  let usable := total - used
  let utilized := if total ≠ 0 then used / total * 100 else 0
  let heap_total := memory.heap_total
  let heap_used := memory.heap_used
  let heap_usable := heap_total - heap_used
  let heap_utilized := if heap_total ≠ 0 then heap_used / heap_total * 100 else 0
  let shared_total := memory.shared_total
  let shared_used := memory.shared_used
  let shared_usable := shared_total - shared_used
  let shared_utilized := if shared_total ≠ 0 then shared_used / shared_total * 100 else 0
  let compactors_total := memory.compactors_total
  let compactors_usable := memory.compactors_usable
  let compactors_used := compactors_total - compactors_usable
  let compactors_utilized :=
    if compactors_total ≠ 0 then compactors_used / compactors_total * 100 else 0
  [⟨"memory.service.overall.physical.total", memory.physical, tags, host⟩,
   ⟨"memory.service.overall.virtual.total", memory.virtual, tags, host⟩,
   ⟨"memory.service.overall.total", total, tags, host⟩,
   ⟨"memory.service.overall.used", used, tags, host⟩,
   ⟨"memory.service.overall.usable", usable, tags, host⟩,
   ⟨"memory.service.overall.utilized", utilized, tags, host⟩,
   ⟨"memory.service.heap.total", heap_total, tags, host⟩,
   ⟨"memory.service.heap.used", heap_used, tags, host⟩,
   ⟨"memory.service.heap.usable", heap_usable, tags, host⟩,
   ⟨"memory.service.heap.utilized", heap_utilized, tags, host⟩,
   ⟨"memory.service.shared.total", shared_total, tags, host⟩,
   ⟨"memory.service.shared.used", shared_used, tags, host⟩,
   ⟨"memory.service.shared.usable", shared_usable, tags, host⟩,
   ⟨"memory.service.shared.utilized", shared_utilized, tags, host⟩,
   ⟨"memory.service.compactor.total", compactors_total, tags, host⟩,
   ⟨"memory.service.compactor.usable", compactors_usable, tags, host⟩,
   ⟨"memory.service.compactor.used", compactors_used, tags, host⟩,
   ⟨"memory.service.compactor.utilized", compactors_utilized, tags, host⟩]

/-- `SapHanaCheck.query_service_memory` over a whole result set. -/
def queryServiceMemory (ctx : Ctx) (rows : List ServiceMemoryRow) : List Gauge :=
  rows.flatMap (queryServiceMemoryRow ctx)

/-- One row of the `GlobalSystemRowStoreMemory` query; unlike the other
memory views, this one supplies `usable` directly as a column. -/
structure RowStoreRow where
  db_name : String
  port : Int
  category : String
  host : String
  total : ℚ
  used : ℚ
  usable : ℚ
deriving DecidableEq

/-- The body of the loop in `SapHanaCheck.query_row_store_memory` for one
row: `usable` is reported straight from the row, not derived as
`total - used`. -/
def queryRowStoreMemoryRow (ctx : Ctx) (memory : RowStoreRow) : List Gauge :=
  let tags :=
    ["db:" ++ memory.db_name,
     "hana_port:" ++ toString memory.port,
     "category_name:" ++ memory.category] ++ ctx.tags
  let host := getHanaHostname ctx (some memory.host)
  let total := memory.total
  let used := memory.used
  let usable := memory.usable
  let utilized := if total ≠ 0 then used / total * 100 else 0
  [⟨"memory.row_store.total", total, tags, host⟩,
   ⟨"memory.row_store.used", used, tags, host⟩,
   ⟨"memory.row_store.usable", usable, tags, host⟩,
   ⟨"memory.row_store.utilized", utilized, tags, host⟩]

/-- `SapHanaCheck.query_row_store_memory` over a whole result set. -/
def queryRowStoreMemory (ctx : Ctx) (rows : List RowStoreRow) : List Gauge :=
  rows.flatMap (queryRowStoreMemoryRow ctx)

/-- One row of the `GlobalSystemConnectionsStatus` query. -/
structure ConnRow where
  db_name : String
  host : String
  port : Int
  status : String
  total : ℚ
deriving DecidableEq

/-- The value of the `defaultdict` factory in
`SapHanaCheck.query_connection_overview`: `{'running': 0, 'idle': 0}`. -/
structure ConnCounts where
  running : ℚ
  idle : ℚ
deriving DecidableEq

/-- The grouping key `(conn['db_name'], conn['host'], conn['port'])`. -/
abbrev ConnKey : Type := String × String × Int

/-- The key of one connection row. -/
def connKeyOf (conn : ConnRow) : ConnKey :=
  (conn.db_name, conn.host, conn.port)

/-- `counts[status] += total` on the fixed-key dict
`{'running': 0, 'idle': 0}`: any status other than `running` or `idle`
raises `KeyError(status)`, modelled as an `Except.error` carrying the
offending key. -/
def bumpCounts (counts : ConnCounts) (status : String) (total : ℚ) :
    Except String ConnCounts :=
  if status = "running" then Except.ok { counts with running := counts.running + total }
  else if status = "idle" then Except.ok { counts with idle := counts.idle + total }
  else Except.error status

/-- One iteration of the aggregation loop:
`db_counts[key][conn['status'].lower()] += conn['total']`, where `db_counts`
is a `defaultdict` (a missing key starts from `{'running': 0, 'idle': 0}`). -/
def updateConnCounts (db_counts : List (ConnKey × ConnCounts)) (conn : ConnRow) :
    Except String (List (ConnKey × ConnCounts)) :=
  let key := connKeyOf conn
  match bumpCounts ((dictGet db_counts key).getD ⟨0, 0⟩) (pyLower conn.status) conn.total with
  | Except.ok counts => Except.ok (dictSet db_counts key counts)
  | Except.error e => Except.error e

/-- The aggregation loop of `SapHanaCheck.query_connection_overview`: the
first unknown status aborts the whole query with a `KeyError`. -/
def buildConnCounts :
    List (ConnKey × ConnCounts) → List ConnRow → Except String (List (ConnKey × ConnCounts))
  | db_counts, [] => Except.ok db_counts
  | db_counts, conn :: rest =>
    match updateConnCounts db_counts conn with
    | Except.ok db_counts' => buildConnCounts db_counts' rest
    | Except.error e => Except.error e

/-- The emission loop of `SapHanaCheck.query_connection_overview` for one
aggregated entry: `connection.running`, `connection.idle`, and
`connection.active = running + idle`. -/
def emitConnEntry (ctx : Ctx) (entry : ConnKey × ConnCounts) : List Gauge :=
  let tags := ["db:" ++ entry.1.1, "hana_port:" ++ toString entry.1.2.2] ++ ctx.tags
  let host := getHanaHostname ctx (some entry.1.2.1)
  let running := entry.2.running
  let idle := entry.2.idle
  [⟨"connection.running", running, tags, host⟩,
   ⟨"connection.idle", idle, tags, host⟩,
   ⟨"connection.active", running + idle, tags, host⟩]

/-- `SapHanaCheck.query_connection_overview`: aggregate, then emit per key in
insertion order. An unknown status propagates as the uncaught `KeyError`, so
no connection gauge at all is emitted for that run. -/
def queryConnectionOverview (ctx : Ctx) (rows : List ConnRow) :
    Except String (List Gauge) :=
  match buildConnCounts [] rows with
  | Except.ok db_counts => Except.ok (db_counts.flatMap (emitConnEntry ctx))
  | Except.error e => Except.error e

/-- Sum of `total` over the rows of a result set that fall on key `key` with
lowercased status `status` (specification device for the aggregation
theorems). -/
def sumStatus (rows : List ConnRow) (key : ConnKey) (status : String) : ℚ :=
  ((rows.filter fun conn =>
      decide (connKeyOf conn = key) && decide (pyLower conn.status = status)).map
    ConnRow.total).sum

/-- Python `sub in s` substring test. -/
def pyIn (sub s : String) : Prop :=
  sub.data <:+: s.data

instance (sub s : String) : Decidable (pyIn sub s) :=
  inferInstanceAs (Decidable (sub.data <:+: s.data))

/-- The error formatting in `SapHanaCheck.check`: a caught exception text
gets the required-views hint appended when it contains the substring
`insufficient privilege`. `viewsUsed` stands for `queries.VIEWS_USED`
(module `queries` is not part of the sources being verified, so the list is
a parameter). -/
def formatQueryError (viewsUsed : List String) (e : String) : String :=
  if pyIn "insufficient privilege" e then
    e ++ " ---> Access to the following views is required: " ++ String.intercalate ", " viewsUsed
  else e

/-- The dispatch loop of `SapHanaCheck.check`: each query method is modelled
by its name together with its outcome, either the gauges it emits or the
exception text it raises. A raising method contributes a log entry
`(name, formatted error)` and the loop continues with the remaining
methods. Returns the log entries and all emitted gauges, in order. -/
def runCheck (viewsUsed : List String) :
    List (String × Except String (List Gauge)) → List (String × String) × List Gauge
  | [] => ([], [])
  | (name, outcome) :: rest =>
    let next := runCheck viewsUsed rest
    match outcome with
    | Except.ok gauges => (next.1, gauges ++ next.2)
    | Except.error e => ((name, formatQueryError viewsUsed e) :: next.1, next.2)

/-- The values of the gauges named `n` among an emission list, in order
(specification device: extracts one metric family member from a mapper's
output). -/
def gaugeValues (n : String) (gauges : List Gauge) : List ℚ :=
  (gauges.filter fun g => decide (g.name = n)).map Gauge.value

end SapHana

namespace Fluentd

/-- A configuration mapping as far as timeout resolution reads it: the
optional `timeout` and legacy `default_timeout` keys. -/
structure TimeoutConfig where
  timeout : Option ℚ
  default_timeout : Option ℚ
deriving DecidableEq

/-- Modelled from the spec: the fluentd check's timeout resolution (the
check's own module is not among the sources; only its unit tests
`src/fluentd/tests/test_unit.py` are). Per spec section 4.5, the effective
(connect, read) pair takes the first present value among instance `timeout`,
instance `default_timeout`, init-config `timeout`, init-config
`default_timeout`, then the hardcoded default 5 seconds. -/
def resolveTimeout (inst init_config : TimeoutConfig) : ℚ × ℚ :=
  let t :=
    match inst.timeout with
    | some v => v
    | none =>
      match inst.default_timeout with
      | some v => v
      | none =>
        match init_config.timeout with
        | some v => v
        | none =>
          match init_config.default_timeout with
          | some v => v
          | none => 5
  (t, t)

end Fluentd

namespace SapHana

theorem overwriteRow_nil {V : Type} (fields : List String) (result : List (String × V)) :
    overwriteRow fields [] result = result := by
  cases fields <;> rfl

theorem overwriteRow_cons {V : Type} (f : String) (fs : List String) (x : V)
    (xs : List V) (result : List (String × V)) :
    overwriteRow (f :: fs) (x :: xs) result = overwriteRow fs xs (dictSet result f x) :=
  rfl

theorem processBatch_eq {V : Type} (fields : List String) (batch : List (List V)) :
    ∀ result, processBatch fields result batch
      = (batch.foldl (fun r row => overwriteRow fields row r) result,
         scanRows fields result batch) := by
  induction batch with
  | nil => intro result; rfl
  | cons row rest ih =>
    intro result
    simp only [processBatch, scanRows, List.foldl_cons, ih]

theorem scanRows_append {V : Type} (fields : List String) (l₁ l₂ : List (List V)) :
    ∀ result, scanRows fields result (l₁ ++ l₂)
      = scanRows fields result l₁
        ++ scanRows fields (l₁.foldl (fun r row => overwriteRow fields row r) result) l₂ := by
  induction l₁ with
  | nil => intro result; rfl
  | cons row rest ih =>
    intro result
    simp only [List.cons_append, scanRows, List.foldl_cons, ih, List.append_eq]

theorem scanRows_length {V : Type} (fields : List String) (rows : List (List V)) :
    ∀ result, (scanRows fields result rows).length = rows.length := by
  induction rows with
  | nil => intro result; rfl
  | cons row rest ih =>
    intro result
    simp only [scanRows, List.length_cons, ih]

theorem iterRowsAux_eq_scan {V : Type} (fields : List String) (limit : Nat)
    (hl : 0 < limit) :
    ∀ fuel (result : List (String × V)) remaining, remaining.length < fuel →
      iterRowsAux fields limit fuel result remaining = scanRows fields result remaining := by
  intro fuel
  induction fuel with
  | zero => intro result remaining h; omega
  | succ fuel ih =>
    intro result remaining h
    match remaining with
    | [] => simp [iterRowsAux, scanRows]
    | r :: rem =>
      obtain ⟨l, rfl⟩ : ∃ l, limit = l + 1 := ⟨limit - 1, by omega⟩
      have hne : ((r :: rem).take (l + 1)).isEmpty = false := by
        simp [List.take_succ_cons]
      rw [iterRowsAux]
      simp only [hne, Bool.false_eq_true, if_false, processBatch_eq]
      rw [ih]
      · rw [← scanRows_append, List.take_append_drop]
      · have hdl := List.length_drop (l + 1) (r :: rem)
        simp only [List.length_cons] at h hdl ⊢
        omega

theorem iterRows_eq_scan {V : Type} (fields : List String) (limit : Nat)
    (rows : List (List V)) (hl : 0 < limit) :
    iterRows fields limit rows = scanRows fields [] rows :=
  iterRowsAux_eq_scan fields limit hl (rows.length + 1) [] rows (Nat.lt_succ_self _)

theorem fetchChunksAux_flatten {V : Type} (limit : Nat) (hl : 0 < limit) :
    ∀ fuel (remaining : List (List V)), remaining.length < fuel →
      (fetchChunksAux limit fuel remaining).flatten = remaining := by
  intro fuel
  induction fuel with
  | zero => intro remaining h; omega
  | succ fuel ih =>
    intro remaining h
    match remaining with
    | [] => simp [fetchChunksAux]
    | r :: rem =>
      obtain ⟨l, rfl⟩ : ∃ l, limit = l + 1 := ⟨limit - 1, by omega⟩
      have hne : ((r :: rem).take (l + 1)).isEmpty = false := by
        simp [List.take_succ_cons]
      rw [fetchChunksAux]
      simp only [hne, Bool.false_eq_true, if_false, List.flatten_cons]
      rw [ih]
      · exact List.take_append_drop _ _
      · have hdl := List.length_drop (l + 1) (r :: rem)
        simp only [List.length_cons] at h hdl ⊢
        omega

theorem fetchChunksAux_batches {V : Type} (limit : Nat) :
    ∀ fuel (remaining : List (List V)) b, b ∈ fetchChunksAux limit fuel remaining →
      b ≠ [] ∧ b.length ≤ limit := by
  intro fuel
  induction fuel with
  | zero => intro remaining b hb; simp [fetchChunksAux] at hb
  | succ fuel ih =>
    intro remaining b hb
    rw [fetchChunksAux] at hb
    by_cases he : (remaining.take limit).isEmpty
    · simp [he] at hb
    · simp only [Bool.not_eq_true] at he
      simp only [he, Bool.false_eq_true, if_false, List.mem_cons] at hb
      cases hb with
      | inl hb =>
        subst hb
        refine ⟨fun hnil => ?_, by simp [List.length_take_le]⟩
        rw [hnil] at he
        simp at he
      | inr hb => exact ih _ _ hb

/-- C2: with a positive row limit, `iter_rows` fetches the result set in
batches of at most `limit` rows, stopping at the first empty batch; the
nonempty batches concatenate back to the whole result set, and the iterator
yields exactly one field mapping per result row, never more and never
fewer. -/
theorem iter_rows_yields_every_row {V : Type} (fields : List String) (limit : Nat)
    (rows : List (List V)) (hl : 0 < limit) :
    (iterRows fields limit rows).length = rows.length
    ∧ (fetchBatches limit rows).flatten = rows
    ∧ ∀ b ∈ fetchBatches limit rows, b ≠ [] ∧ b.length ≤ limit := by
  refine ⟨?_, ?_, ?_⟩
  · rw [iterRows_eq_scan fields limit rows hl, scanRows_length]
  · exact fetchChunksAux_flatten limit hl _ rows (Nat.lt_succ_self _)
  · exact fun b hb => fetchChunksAux_batches limit _ rows b hb

/-- Witness for C2 at a concrete instance: five rows with a row limit of two
give batches of 2/2/1 and exactly five yielded mappings. -/
theorem iter_rows_yields_every_row_witness :
    0 < 2
    ∧ (iterRows ["a"] 2 [[(1 : Int)], [2], [3], [4], [5]]).length
        = ([[(1 : Int)], [2], [3], [4], [5]] : List (List Int)).length :=
  ⟨by decide, (iter_rows_yields_every_row ["a"] 2 [[1], [2], [3], [4], [5]] (by decide)).1⟩

theorem dictGet_dictSet {K V : Type} [DecidableEq K] (l : List (K × V))
    (k k' : K) (v : V) :
    dictGet (dictSet l k v) k' = if k = k' then some v else dictGet l k' := by
  induction l with
  | nil => simp [dictSet, dictGet]
  | cons p rest ih =>
    obtain ⟨k0, v0⟩ := p
    by_cases h0 : k0 = k
    · subst h0
      simp only [dictSet, if_pos rfl, dictGet]
      by_cases h1 : k0 = k'
      · simp [h1]
      · simp [h1]
    · simp only [dictSet, if_neg h0, dictGet]
      by_cases h1 : k0 = k'
      · have hkk : ¬k = k' := fun he => h0 (h1.trans he.symm)
        simp [h1, hkk]
      · simp [h1, ih]

theorem dictGet_overwriteRow_not_mem {V : Type} (fields : List String) :
    ∀ (row : List V) result k, k ∉ fields →
      dictGet (overwriteRow fields row result) k = dictGet result k := by
  induction fields with
  | nil => intro row result k _; cases row <;> rfl
  | cons f fs ih =>
    intro row result k hk
    cases row with
    | nil => rfl
    | cons x xs =>
      rw [overwriteRow_cons, ih xs _ k (fun h => hk (List.mem_cons_of_mem f h)),
        dictGet_dictSet]
      have : f ≠ k := fun h => hk (h ▸ List.mem_cons_self f fs)
      simp [this]

theorem dictGet_overwriteRow_full {V : Type} (fields : List String) :
    ∀ (row : List V) result, fields.length ≤ row.length →
      ∀ k ∈ fields, ∃ v, dictGet (overwriteRow fields row result) k = some v ∧ v ∈ row := by
  induction fields with
  | nil => intro row result _ k hk; cases hk
  | cons f fs ih =>
    intro row result hlen k hk
    cases row with
    | nil => simp at hlen
    | cons x xs =>
      rw [overwriteRow_cons]
      simp only [List.length_cons, Nat.add_le_add_iff_right] at hlen
      by_cases hmem : k ∈ fs
      · obtain ⟨v, hv, hvmem⟩ := ih xs (dictSet result f x) hlen k hmem
        exact ⟨v, hv, List.mem_cons_of_mem x hvmem⟩
      · have hkf : k = f := by
          rcases List.mem_cons.mp hk with h | h
          · exact h
          · exact absurd h hmem
        subst hkf
        refine ⟨x, ?_, List.mem_cons_self x xs⟩
        rw [dictGet_overwriteRow_not_mem fs xs _ k hmem, dictGet_dictSet]
        simp

theorem scanRows_get_full {V : Type} (fields : List String) :
    ∀ (rows : List (List V)) result, (∀ r ∈ rows, fields.length ≤ r.length) →
      ∀ (i : Nat) (m : List (String × V)), (scanRows fields result rows)[i]? = some m →
        ∀ k ∈ fields, ∃ v : V, dictGet m k = some v
          ∧ ∃ r : List V, rows[i]? = some r ∧ v ∈ r := by
  intro rows
  induction rows with
  | nil => intro result _ i m hm; simp [scanRows] at hm
  | cons row rest ih =>
    intro result hfull i m hm k hk
    cases i with
    | zero =>
      simp only [scanRows, List.getElem?_cons_zero, Option.some.injEq] at hm
      subst hm
      obtain ⟨v, hv, hvmem⟩ :=
        dictGet_overwriteRow_full fields row result
          (hfull row (List.mem_cons_self row rest)) k hk
      exact ⟨v, hv, row, by simp, hvmem⟩
    | succ i =>
      simp only [scanRows, List.getElem?_cons_succ] at hm
      obtain ⟨v, hv, r, hr, hvmem⟩ :=
        ih _ (fun r hr => hfull r (List.mem_cons_of_mem row hr)) i m hm k hk
      exact ⟨v, hv, r, by simpa using hr, hvmem⟩

/-- C1 (amended): when every result row supplies at least as many positional
values as the descriptor has field names, each mapping yielded by `iter_rows`
binds every field name to a value taken from that very row: the reused dict
has then been fully overwritten before the yield. (Without that proviso the
claim is false, see the counterexample.) -/
theorem iter_rows_mapping_from_own_row {V : Type} (fields : List String)
    (limit : Nat) (rows : List (List V)) (hl : 0 < limit)
    (hfull : ∀ r ∈ rows, fields.length ≤ r.length) :
    ∀ (i : Nat) (m : List (String × V)), (iterRows fields limit rows)[i]? = some m →
      ∀ k ∈ fields, ∃ v : V, dictGet m k = some v
        ∧ ∃ r : List V, rows[i]? = some r ∧ v ∈ r := by
  rw [iterRows_eq_scan fields limit rows hl]
  exact scanRows_get_full fields rows [] hfull

/-- Witness for C1 (amended) at a concrete instance: with full rows, the
second yielded mapping binds field `b` to a value of the second row. -/
theorem iter_rows_mapping_from_own_row_witness :
    ∃ v : Int, dictGet [(("a" : String), (3 : Int)), ("b", 4)] "b" = some v
      ∧ ∃ r : List Int, ([[(1 : Int), 2], [3, 4]] : List (List Int))[1]? = some r ∧ v ∈ r :=
  iter_rows_mapping_from_own_row ["a", "b"] 2 [[1, 2], [3, 4]] (by decide) (by decide)
    1 [("a", 3), ("b", 4)] (by decide) "b" (by decide)

/-- C1 counterexample: the claim as stated is false on the code. With fields
`a, b` and result rows `[1, 2]` then `[3]`, the second row supplies fewer
positional values than there are field names, and the mapping yielded for it
still binds `b` to `2`, the value from the first row — a stale value, since
`2` does not occur in the second row `[3]`. -/
theorem iter_rows_stale_leak :
    (iterRows ["a", "b"] 1000 [[(1 : Int), 2], [3]])[1]? = some [("a", 3), ("b", 2)]
    ∧ dictGet [(("a" : String), (3 : Int)), ("b", 2)] "b" = some 2
    ∧ (2 : Int) ∉ [(3 : Int)] := by
  refine ⟨by decide, by decide, by decide⟩

theorem pyReplaceAux_nil (old new : List Char) (k : Nat) :
    pyReplaceAux old new [] k = [] := by
  cases k <;> rfl

theorem pyReplaceAux_skip (old new : List Char) :
    ∀ (s : List Char) (k : Nat),
      pyReplaceAux old new s k = pyReplaceAux old new (s.drop k) 0 := by
  intro s
  induction s with
  | nil => intro k; cases k <;> rfl
  | cons c rest ih =>
    intro k
    cases k with
    | zero => rfl
    | succ k =>
      rw [List.drop_succ_cons, ← ih k]
      rfl

theorem pyReplaceAux_pos (old new : List Char) (s : List Char) (hold : old ≠ [])
    (hpre : old <+: s) :
    pyReplaceAux old new s 0 = new ++ pyReplaceAux old new (s.drop old.length) 0 := by
  match s with
  | [] => exact absurd (List.prefix_nil.mp hpre) hold
  | c :: rest =>
    obtain ⟨m, hm⟩ : ∃ m, old.length = m + 1 := by
      cases old with
      | nil => exact absurd rfl hold
      | cons o os => exact ⟨os.length, rfl⟩
    rw [pyReplaceAux, if_pos hpre, pyReplaceAux_skip, hm]
    simp

theorem pyReplaceAux_neg (old new : List Char) (c : Char) (rest : List Char)
    (hpre : ¬old <+: (c :: rest)) :
    pyReplaceAux old new (c :: rest) 0 = c :: pyReplaceAux old new rest 0 := by
  rw [pyReplaceAux, if_neg hpre]

theorem infix_of_infix_replicate_append (p b : List Char) (star : Char)
    (hp : p ≠ []) (hstar : star ∉ p) :
    ∀ n, p <:+: (List.replicate n star ++ b) → p <:+: b := by
  intro n
  induction n with
  | zero => intro h; simpa using h
  | succ n ih =>
    intro h
    rw [List.replicate_succ, List.cons_append] at h
    rcases List.infix_cons_iff.mp h with hpre | hinf
    · match p, hp with
      | c :: p', _ =>
        obtain ⟨hc, -⟩ := List.cons_prefix_cons.mp hpre
        exact absurd (List.mem_cons.mpr (Or.inl hc.symm)) hstar
    · exact ih hinf

theorem pyReplaceAux_never_prefixed (old : List Char) (star : Char) (hold : old ≠ []) :
    ∀ (t q : List Char), q ≠ [] → star ∉ q → ¬q <+: t →
      ¬q <+: pyReplaceAux old (List.replicate old.length star) t 0 := by
  intro t
  induction t with
  | nil =>
    intro q hq _ _ hpre
    rw [pyReplaceAux_nil] at hpre
    exact hq (List.prefix_nil.mp hpre)
  | cons a t' ih =>
    intro q hq hstar hqt hpre
    by_cases hp : old <+: (a :: t')
    · rw [pyReplaceAux_pos old _ _ hold hp] at hpre
      obtain ⟨m, hm⟩ : ∃ m, old.length = m + 1 := by
        cases old with
        | nil => exact absurd rfl hold
        | cons o os => exact ⟨os.length, rfl⟩
      rw [hm, List.replicate_succ, List.cons_append] at hpre
      match q, hq with
      | c :: q', _ =>
        obtain ⟨hc, -⟩ := List.cons_prefix_cons.mp hpre
        exact hstar (List.mem_cons.mpr (Or.inl hc.symm))
    · rw [pyReplaceAux_neg old _ a t' hp] at hpre
      match q, hq, hstar, hqt with
      | c :: q', _, hstar, hqt =>
        obtain ⟨hc, hq'⟩ := List.cons_prefix_cons.mp hpre
        have hq't : ¬q' <+: t' := fun h => hqt (List.cons_prefix_cons.mpr ⟨hc, h⟩)
        match q' with
        | [] => exact hq't List.nil_prefix
        | d :: q'' =>
          exact ih (d :: q'') (by simp)
            (fun h => hstar (List.mem_cons_of_mem _ h)) hq't hq'

theorem pyReplaceAux_contains_never (old : List Char) (star : Char) (hold : old ≠ [])
    (hstar : star ∉ old) :
    ∀ (n : Nat) (t : List Char), t.length ≤ n →
      ¬old <:+: pyReplaceAux old (List.replicate old.length star) t 0 := by
  intro n
  induction n with
  | zero =>
    intro t ht hinf
    have ht0 : t = [] := List.length_eq_zero.mp (Nat.le_zero.mp ht)
    subst ht0
    rw [pyReplaceAux_nil] at hinf
    exact hold (List.infix_nil.mp hinf)
  | succ n ih =>
    intro t ht hinf
    match t with
    | [] =>
      rw [pyReplaceAux_nil] at hinf
      exact hold (List.infix_nil.mp hinf)
    | a :: t' =>
      by_cases hp : old <+: (a :: t')
      · rw [pyReplaceAux_pos old _ _ hold hp] at hinf
        have hdrop :=
          infix_of_infix_replicate_append old _ star hold hstar old.length hinf
        refine ih ((a :: t').drop old.length) ?_ hdrop
        have hlen := List.length_drop old.length (a :: t')
        have holdlen : 1 ≤ old.length := by
          cases old with
          | nil => exact absurd rfl hold
          | cons o os => simp
        simp only [List.length_cons] at ht hlen ⊢
        omega
      · rw [pyReplaceAux_neg old _ a t' hp] at hinf
        rcases List.infix_cons_iff.mp hinf with hpre | hinf'
        · refine pyReplaceAux_never_prefixed old star hold (a :: t') old hold hstar hp ?_
          rw [pyReplaceAux_neg old _ a t' hp]
          exact hpre
        · refine ih t' ?_ hinf'
          simp only [List.length_cons] at ht
          omega

/-- C6 (amended): the connection-error redaction replaces every occurrence of
the configured password with asterisks of the same length, and whenever the
password is nonempty and itself contains no asterisk, the message that is
logged and attached to the CRITICAL `can_connect` service check does not
contain the password. (Passwords containing an asterisk can survive in the
output, see the counterexample, so the unconditional claim is false.) -/
theorem redact_password_no_leak (password error : List Char)
    (hne : password ≠ []) (hstar : '*' ∉ password) :
    ¬password <:+: redactPassword password error := by
  unfold redactPassword pyReplace
  have hemp : password.isEmpty = false := by
    cases password with
    | nil => exact absurd rfl hne
    | cons c cs => rfl
  rw [hemp]
  simp only [Bool.false_eq_true, if_false]
  exact pyReplaceAux_contains_never password '*' hne hstar error.length error (Nat.le_refl _)

/-- Witness for C6 (amended) at a concrete instance: the password `secret`
never survives redaction. -/
theorem redact_password_no_leak_witness :
    "secret".data ≠ [] ∧ '*' ∉ "secret".data
    ∧ ¬"secret".data <:+: redactPassword "secret".data "auth failed for secret".data :=
  ⟨by decide, by decide, redact_password_no_leak _ _ (by decide) (by decide)⟩

/-- C6 counterexample: the claim as stated is false on the code. For the
password `*a` and the error text `**aa`, the code's
`str(e).replace(password, '*' * len(password))` produces `***a`, and the
literal password `*a` still occurs in the redacted message that is logged
and emitted with the service check. -/
theorem redact_password_leak_cex :
    redactPassword "*a".data "**aa".data = "***a".data
    ∧ "*a".data <:+: "***a".data := by
  exact ⟨by decide, by decide⟩

/-- C3: every metric family that computes a utilization ratio (licenses,
disk, the four service-memory ratios, row-store memory) emits 0 when the
row's total is 0, and `used / total * 100` when the total is nonzero. -/
theorem utilized_ratio_division_safe (ctx : Ctx) (lic : LicenseRow) (disk : DiskRow)
    (mem : ServiceMemoryRow) (rs : RowStoreRow) :
    (lic.limit = 0 → gaugeValues "license.utilized" (queryLicensesRow ctx lic) = [0])
    ∧ (lic.limit ≠ 0 → gaugeValues "license.utilized" (queryLicensesRow ctx lic)
        = [lic.usage / lic.limit * 100])
    ∧ (disk.total = 0 → gaugeValues "disk.utilized" (queryDiskUsageRow ctx disk) = [0])
    ∧ (disk.total ≠ 0 → gaugeValues "disk.utilized" (queryDiskUsageRow ctx disk)
        = [max 0 disk.used / disk.total * 100])
    ∧ (mem.total = 0 →
        gaugeValues "memory.service.overall.utilized" (queryServiceMemoryRow ctx mem) = [0])
    ∧ (mem.total ≠ 0 →
        gaugeValues "memory.service.overall.utilized" (queryServiceMemoryRow ctx mem)
          = [mem.used / mem.total * 100])
    ∧ (mem.heap_total = 0 →
        gaugeValues "memory.service.heap.utilized" (queryServiceMemoryRow ctx mem) = [0])
    ∧ (mem.heap_total ≠ 0 →
        gaugeValues "memory.service.heap.utilized" (queryServiceMemoryRow ctx mem)
          = [mem.heap_used / mem.heap_total * 100])
    ∧ (mem.shared_total = 0 →
        gaugeValues "memory.service.shared.utilized" (queryServiceMemoryRow ctx mem) = [0])
    ∧ (mem.shared_total ≠ 0 →
        gaugeValues "memory.service.shared.utilized" (queryServiceMemoryRow ctx mem)
          = [mem.shared_used / mem.shared_total * 100])
    ∧ (mem.compactors_total = 0 →
        gaugeValues "memory.service.compactor.utilized" (queryServiceMemoryRow ctx mem) = [0])
    ∧ (mem.compactors_total ≠ 0 →
        gaugeValues "memory.service.compactor.utilized" (queryServiceMemoryRow ctx mem)
          = [(mem.compactors_total - mem.compactors_usable) / mem.compactors_total * 100])
    ∧ (rs.total = 0 →
        gaugeValues "memory.row_store.utilized" (queryRowStoreMemoryRow ctx rs) = [0])
    ∧ (rs.total ≠ 0 →
        gaugeValues "memory.row_store.utilized" (queryRowStoreMemoryRow ctx rs)
          = [rs.used / rs.total * 100]) := by
  refine ⟨?_, ?_, ?_, ?_, ?_, ?_, ?_, ?_, ?_, ?_, ?_, ?_, ?_, ?_⟩ <;> intro h <;>
    simp [gaugeValues, queryLicensesRow, queryDiskUsageRow, queryServiceMemoryRow,
      queryRowStoreMemoryRow, h]

/-- Witness for C3 at concrete rows: a license row with `limit = 0` and a
disk row with `total = 0` both report a utilization of exactly 0. -/
theorem utilized_ratio_division_safe_witness :
    gaugeValues "license.utilized"
        (queryLicensesRow ⟨true, none, []⟩ ⟨"s", "p", none, 0, 0, 7⟩) = [0]
    ∧ gaugeValues "disk.utilized"
        (queryDiskUsageRow ⟨true, none, []⟩ ⟨"db", "data", "h", 0, 3⟩) = [0] :=
  ⟨(utilized_ratio_division_safe ⟨true, none, []⟩ ⟨"s", "p", none, 0, 0, 7⟩
      ⟨"db", "data", "h", 0, 3⟩ ⟨none, 1, "sv", "h", 1, 1, 1, 1, 1, 1, 1, 1, 1, 1⟩
      ⟨"db", 1, "c", "h", 1, 1, 1⟩).1 rfl,
   (utilized_ratio_division_safe ⟨true, none, []⟩ ⟨"s", "p", none, 0, 0, 7⟩
      ⟨"db", "data", "h", 0, 3⟩ ⟨none, 1, "sv", "h", 1, 1, 1, 1, 1, 1, 1, 1, 1, 1⟩
      ⟨"db", 1, "c", "h", 1, 1, 1⟩).2.2.1 rfl⟩

/-- C8 (amended): the clamp `used = max(0, used)` is applied in the
disk-usage mapper only; the license and service-memory mappers derive
`usable = total - used` without clamping; the compactor sub-family instead
derives `used = total - usable` from the row's usable value, and the
row-store mapper reports the row's own `usable` column rather than computing
`total - used`. -/
theorem usable_clamped_only_for_disk (ctx : Ctx) (disk : DiskRow) (lic : LicenseRow)
    (mem : ServiceMemoryRow) (rs : RowStoreRow) :
    gaugeValues "disk.used" (queryDiskUsageRow ctx disk) = [max 0 disk.used]
    ∧ gaugeValues "disk.usable" (queryDiskUsageRow ctx disk)
        = [disk.total - max 0 disk.used]
    ∧ gaugeValues "license.usable" (queryLicensesRow ctx lic)
        = [lic.limit - lic.usage]
    ∧ gaugeValues "memory.service.overall.usable" (queryServiceMemoryRow ctx mem)
        = [mem.total - mem.used]
    ∧ gaugeValues "memory.service.heap.usable" (queryServiceMemoryRow ctx mem)
        = [mem.heap_total - mem.heap_used]
    ∧ gaugeValues "memory.service.shared.usable" (queryServiceMemoryRow ctx mem)
        = [mem.shared_total - mem.shared_used]
    ∧ gaugeValues "memory.service.compactor.used" (queryServiceMemoryRow ctx mem)
        = [mem.compactors_total - mem.compactors_usable]
    ∧ gaugeValues "memory.row_store.usable" (queryRowStoreMemoryRow ctx rs)
        = [rs.usable] := by
  refine ⟨?_, ?_, ?_, ?_, ?_, ?_, ?_, ?_⟩ <;>
    simp [gaugeValues, queryLicensesRow, queryDiskUsageRow, queryServiceMemoryRow,
      queryRowStoreMemoryRow]

/-- C8 counterexample: the claim as stated — every non-disk mapper computes
`usable = total - used` — is false: the row-store mapper reports the row's
`usable` column unchanged. On a row with `total = 10`, `used = 3`,
`usable = 5`, it emits 5, while `total - used = 7`. -/
theorem row_store_usable_from_row_cex :
    gaugeValues "memory.row_store.usable"
      (queryRowStoreMemoryRow ⟨true, none, []⟩ ⟨"db", 1, "cat", "h", 10, 3, 5⟩) = [5]
    ∧ (5 : ℚ) ≠ 10 - 3 := by
  exact ⟨by decide, by norm_num⟩

theorem queryMasterDatabase_ctx_off :
    ∀ (rows : List MasterRow) (ctx : Ctx), ctx.useHanaHostnames = false →
      (queryMasterDatabase ctx rows).1 = ctx := by
  intro rows
  induction rows with
  | nil => intro ctx _; rfl
  | cons master rest ih =>
    intro ctx h
    simp only [queryMasterDatabase, queryMasterDatabaseStep, h, Bool.false_eq_true,
      if_false]
    exact ih ctx h

theorem queryMasterDatabase_caches_last :
    ∀ (rows : List MasterRow) (master : MasterRow) (ctx : Ctx),
      ctx.useHanaHostnames = true →
      (queryMasterDatabase ctx (rows ++ [master])).1.masterHostname = some master.host := by
  intro rows
  induction rows with
  | nil =>
    intro master ctx h
    simp [queryMasterDatabase, queryMasterDatabaseStep, h]
  | cons r rest ih =>
    intro master ctx h
    simp only [List.cons_append, queryMasterDatabase, queryMasterDatabaseStep, h, if_true]
    exact ih master _ rfl

/-- C9: effective hostname resolution. With the `use_hana_hostnames` flag
off, `get_hana_hostname` returns none whatever the per-row hostname is, and
the master-database query never caches a hostname (the state is unchanged).
With the flag on, a supplied truthy per-row hostname wins, an empty or absent
one falls back to the cached master hostname, and the master-database query
caches the last row's host. -/
theorem hostname_override_rule (ctx : Ctx) (s : String) (rows : List MasterRow)
    (master : MasterRow) :
    (ctx.useHanaHostnames = false →
      getHanaHostname ctx (some s) = none
      ∧ getHanaHostname ctx none = none
      ∧ (queryMasterDatabase ctx rows).1 = ctx)
    ∧ (ctx.useHanaHostnames = true →
      (s ≠ "" → getHanaHostname ctx (some s) = some s)
      ∧ (s = "" → getHanaHostname ctx (some s) = ctx.masterHostname)
      ∧ getHanaHostname ctx none = ctx.masterHostname
      ∧ (queryMasterDatabase ctx (rows ++ [master])).1.masterHostname
          = some master.host) := by
  constructor
  · intro h
    exact ⟨by simp [getHanaHostname, h], by simp [getHanaHostname, h],
      queryMasterDatabase_ctx_off rows ctx h⟩
  · intro h
    refine ⟨fun hs => ?_, fun hs => ?_, ?_, queryMasterDatabase_caches_last rows master ctx h⟩
    · simp [getHanaHostname, h, pyOrStr, hs]
    · simp [getHanaHostname, h, pyOrStr, hs]
    · simp [getHanaHostname, h, pyOrStr]

/-- Witness for C9 at concrete state: with the flag off, a per-row hostname
is ignored and the cached state is untouched; the flag-on conjuncts are
exercised with a truthy per-row hostname. -/
theorem hostname_override_rule_witness :
    (getHanaHostname ⟨false, some "m", []⟩ (some "h") = none
      ∧ getHanaHostname ⟨false, some "m", []⟩ none = none
      ∧ (queryMasterDatabase ⟨false, some "m", []⟩ [⟨"db", "u", "w", 1, 0⟩]).1
          = ⟨false, some "m", []⟩)
    ∧ getHanaHostname ⟨true, some "m", []⟩ (some "h") = some "h" :=
  ⟨(hostname_override_rule ⟨false, some "m", []⟩ "h" [⟨"db", "u", "w", 1, 0⟩]
      ⟨"db", "u", "w", 1, 0⟩).1 rfl,
   ((hostname_override_rule ⟨true, some "m", []⟩ "h" [] ⟨"db", "u", "w", 1, 0⟩).2
      rfl).1 (by decide)⟩

theorem runCheck_append_error (viewsUsed : List String) (n e : String)
    (post : List (String × Except String (List Gauge))) :
    ∀ pre, runCheck viewsUsed (pre ++ (n, Except.error e) :: post)
      = ((runCheck viewsUsed pre).1
          ++ (n, formatQueryError viewsUsed e) :: (runCheck viewsUsed post).1,
         (runCheck viewsUsed pre).2 ++ (runCheck viewsUsed post).2) := by
  intro pre
  induction pre with
  | nil => simp [runCheck]
  | cons p pre ih =>
    obtain ⟨m, r⟩ := p
    cases r with
    | ok gauges => simp [runCheck, ih]
    | error e0 => simp [runCheck, ih]

/-- C7: in the fixed ordered list of query methods run by `check`, a method
that raises is caught and logged under its own name — with the
required-views hint appended exactly when the error text contains
`insufficient privilege` — and every method after it still runs: the run's
output is the failing entry spliced between the outputs of the methods
before and after it. -/
theorem query_failure_does_not_stop_run (viewsUsed : List String)
    (pre post : List (String × Except String (List Gauge))) (n e : String) :
    runCheck viewsUsed (pre ++ (n, Except.error e) :: post)
      = ((runCheck viewsUsed pre).1
          ++ (n, formatQueryError viewsUsed e) :: (runCheck viewsUsed post).1,
         (runCheck viewsUsed pre).2 ++ (runCheck viewsUsed post).2)
    ∧ (pyIn "insufficient privilege" e →
        formatQueryError viewsUsed e
          = e ++ " ---> Access to the following views is required: "
            ++ String.intercalate ", " viewsUsed)
    ∧ (¬pyIn "insufficient privilege" e → formatQueryError viewsUsed e = e) := by
  refine ⟨runCheck_append_error viewsUsed n e post pre, fun h => ?_, fun h => ?_⟩
  · simp [formatQueryError, h]
  · simp [formatQueryError, h]

/-- Witness for C7 at a concrete instance: a permission error gets the
required-views hint appended. -/
theorem query_failure_does_not_stop_run_witness :
    formatQueryError ["A", "B"] "insufficient privilege"
      = "insufficient privilege" ++ " ---> Access to the following views is required: "
        ++ String.intercalate ", " ["A", "B"] :=
  (query_failure_does_not_stop_run ["A", "B"] [] [] "m" "insufficient privilege").2.1
    (by decide)

end SapHana

namespace Fluentd

/-- C5: the effective (connect, read) timeout pair is the first present value
among instance `timeout`, instance `default_timeout`, init-config `timeout`,
init-config `default_timeout`, then 5; instance-level keys beat init-config
keys and the non-legacy key beats the legacy key at each level. The last five
conjuncts replay the five scenarios of `src/fluentd/tests/test_unit.py`. -/
theorem timeout_resolution_precedence (inst cfg : TimeoutConfig) (t : ℚ) :
    (inst.timeout = some t → resolveTimeout inst cfg = (t, t))
    ∧ (inst.timeout = none → inst.default_timeout = some t →
        resolveTimeout inst cfg = (t, t))
    ∧ (inst.timeout = none → inst.default_timeout = none → cfg.timeout = some t →
        resolveTimeout inst cfg = (t, t))
    ∧ (inst.timeout = none → inst.default_timeout = none → cfg.timeout = none →
        cfg.default_timeout = some t → resolveTimeout inst cfg = (t, t))
    ∧ (inst.timeout = none → inst.default_timeout = none → cfg.timeout = none →
        cfg.default_timeout = none → resolveTimeout inst cfg = (5, 5))
    ∧ resolveTimeout ⟨none, none⟩ ⟨none, none⟩ = (5, 5)
    ∧ resolveTimeout ⟨none, none⟩ ⟨none, some 2⟩ = (2, 2)
    ∧ resolveTimeout ⟨none, none⟩ ⟨some 7, none⟩ = (7, 7)
    ∧ resolveTimeout ⟨none, some 13⟩ ⟨none, some 9⟩ = (13, 13)
    ∧ resolveTimeout ⟨some 15, none⟩ ⟨none, none⟩ = (15, 15) := by
  refine ⟨fun h1 => ?_, fun h1 h2 => ?_, fun h1 h2 h3 => ?_, fun h1 h2 h3 h4 => ?_,
    fun h1 h2 h3 h4 => ?_, rfl, rfl, rfl, rfl, rfl⟩ <;>
    simp [resolveTimeout, h1]
  · simp [h2]
  · simp [h2, h3]
  · simp [h2, h3, h4]
  · simp [h2, h3, h4]

/-- Witness for C5 at a concrete instance: nothing set at all resolves to
the default (5, 5). -/
theorem timeout_resolution_precedence_witness :
    resolveTimeout ⟨none, none⟩ ⟨none, none⟩ = (5, 5) :=
  (timeout_resolution_precedence ⟨none, none⟩ ⟨none, none⟩ 0).2.2.2.2.1
    rfl rfl rfl rfl

end Fluentd

namespace SapHana

theorem sumStatus_nil (k : ConnKey) (st : String) : sumStatus [] k st = 0 := rfl

theorem sumStatus_cons (conn : ConnRow) (rest : List ConnRow) (k : ConnKey)
    (st : String) :
    sumStatus (conn :: rest) k st
      = (if connKeyOf conn = k ∧ pyLower conn.status = st then conn.total else 0)
        + sumStatus rest k st := by
  by_cases h1 : connKeyOf conn = k <;> by_cases h2 : pyLower conn.status = st <;>
    simp [sumStatus, h1, h2]

theorem dictGet_some_mem {K V : Type} [DecidableEq K] :
    ∀ (l : List (K × V)) (k : K) (v : V), dictGet l k = some v → (k, v) ∈ l := by
  intro l
  induction l with
  | nil => intro k v h; simp [dictGet] at h
  | cons p rest ih =>
    intro k v h
    obtain ⟨k0, v0⟩ := p
    by_cases h0 : k0 = k
    · subst h0
      simp only [dictGet, if_true, eq_self_iff_true, Option.some.injEq] at h
      subst h
      exact List.mem_cons_self _ _
    · simp only [dictGet, if_neg h0] at h
      exact List.mem_cons_of_mem _ (ih k v h)

theorem updateConnCounts_running (acc : List (ConnKey × ConnCounts)) (conn : ConnRow)
    (h : pyLower conn.status = "running") :
    updateConnCounts acc conn
      = Except.ok (dictSet acc (connKeyOf conn)
          ⟨((dictGet acc (connKeyOf conn)).getD ⟨0, 0⟩).running + conn.total,
           ((dictGet acc (connKeyOf conn)).getD ⟨0, 0⟩).idle⟩) := by
  simp [updateConnCounts, bumpCounts, h]

theorem updateConnCounts_idle (acc : List (ConnKey × ConnCounts)) (conn : ConnRow)
    (h : pyLower conn.status = "idle") :
    updateConnCounts acc conn
      = Except.ok (dictSet acc (connKeyOf conn)
          ⟨((dictGet acc (connKeyOf conn)).getD ⟨0, 0⟩).running,
           ((dictGet acc (connKeyOf conn)).getD ⟨0, 0⟩).idle + conn.total⟩) := by
  simp [updateConnCounts, bumpCounts, h]

theorem updateConnCounts_error (acc : List (ConnKey × ConnCounts)) (conn : ConnRow)
    (h1 : pyLower conn.status ≠ "running") (h2 : pyLower conn.status ≠ "idle") :
    updateConnCounts acc conn = Except.error (pyLower conn.status) := by
  simp [updateConnCounts, bumpCounts, h1, h2]

theorem updateConnCounts_ok_shape (acc : List (ConnKey × ConnCounts)) (conn : ConnRow)
    (acc' : List (ConnKey × ConnCounts)) (h : updateConnCounts acc conn = Except.ok acc') :
    ∃ c, acc' = dictSet acc (connKeyOf conn) c := by
  simp only [updateConnCounts] at h
  cases hb : bumpCounts ((dictGet acc (connKeyOf conn)).getD ⟨0, 0⟩)
      (pyLower conn.status) conn.total with
  | ok c =>
    rw [hb] at h
    simp only [Except.ok.injEq] at h
    exact ⟨c, h.symm⟩
  | error e =>
    rw [hb] at h
    simp at h

theorem buildConnCounts_lookup :
    ∀ (rows : List ConnRow) (acc : List (ConnKey × ConnCounts)),
      (∀ r ∈ rows, pyLower r.status = "running" ∨ pyLower r.status = "idle") →
      ∃ out, buildConnCounts acc rows = Except.ok out
        ∧ ∀ k : ConnKey,
            ((dictGet out k).getD ⟨0, 0⟩).running
              = ((dictGet acc k).getD ⟨0, 0⟩).running + sumStatus rows k "running"
            ∧ ((dictGet out k).getD ⟨0, 0⟩).idle
              = ((dictGet acc k).getD ⟨0, 0⟩).idle + sumStatus rows k "idle" := by
  intro rows
  induction rows with
  | nil =>
    intro acc _
    exact ⟨acc, rfl, fun k => by simp [sumStatus_nil]⟩
  | cons conn rest ih =>
    intro acc hvalid
    have hconn := hvalid conn (List.mem_cons_self _ _)
    have hrest : ∀ r ∈ rest, pyLower r.status = "running" ∨ pyLower r.status = "idle" :=
      fun r hr => hvalid r (List.mem_cons_of_mem _ hr)
    rcases hconn with hst | hst
    · have hupd := updateConnCounts_running acc conn hst
      obtain ⟨out, hout, hk⟩ := ih (dictSet acc (connKeyOf conn)
        ⟨((dictGet acc (connKeyOf conn)).getD ⟨0, 0⟩).running + conn.total,
         ((dictGet acc (connKeyOf conn)).getD ⟨0, 0⟩).idle⟩) hrest
      refine ⟨out, by simp only [buildConnCounts, hupd]; exact hout, ?_⟩
      intro k
      obtain ⟨hr, hi⟩ := hk k
      rw [sumStatus_cons, sumStatus_cons, hr, hi, dictGet_dictSet]
      by_cases hkk : connKeyOf conn = k
      · subst hkk
        constructor
        · simp [hst]
          ring
        · simp [hst]
      · simp only [if_neg hkk]
        constructor
        · simp only [hkk, false_and, if_false]
          ring
        · simp only [hkk, false_and, if_false]
          ring
    · have hupd := updateConnCounts_idle acc conn hst
      obtain ⟨out, hout, hk⟩ := ih (dictSet acc (connKeyOf conn)
        ⟨((dictGet acc (connKeyOf conn)).getD ⟨0, 0⟩).running,
         ((dictGet acc (connKeyOf conn)).getD ⟨0, 0⟩).idle + conn.total⟩) hrest
      refine ⟨out, by simp only [buildConnCounts, hupd]; exact hout, ?_⟩
      intro k
      obtain ⟨hr, hi⟩ := hk k
      rw [sumStatus_cons, sumStatus_cons, hr, hi, dictGet_dictSet]
      by_cases hkk : connKeyOf conn = k
      · subst hkk
        constructor
        · simp [hst]
        · simp [hst]
          ring
      · simp only [if_neg hkk]
        constructor
        · simp only [hkk, false_and, if_false]
          ring
        · simp only [hkk, false_and, if_false]
          ring

theorem buildConnCounts_key_present :
    ∀ (rows : List ConnRow) (acc out : List (ConnKey × ConnCounts)),
      buildConnCounts acc rows = Except.ok out →
      ∀ k : ConnKey, ((dictGet acc k).isSome ∨ ∃ r ∈ rows, connKeyOf r = k) →
        (dictGet out k).isSome := by
  intro rows
  induction rows with
  | nil =>
    intro acc out h k hk
    simp only [buildConnCounts, Except.ok.injEq] at h
    subst h
    rcases hk with hs | ⟨r, hr, _⟩
    · exact hs
    · cases hr
  | cons conn rest ih =>
    intro acc out h k hk
    rw [buildConnCounts] at h
    cases hu : updateConnCounts acc conn with
    | error e => rw [hu] at h; simp at h
    | ok acc' =>
      rw [hu] at h
      obtain ⟨c, rfl⟩ := updateConnCounts_ok_shape acc conn acc' hu
      refine ih _ _ h k ?_
      rcases hk with hs | ⟨r, hr, hkey⟩
      · left
        rw [dictGet_dictSet]
        by_cases hkk : connKeyOf conn = k
        · simp [hkk]
        · simpa [hkk] using hs
      · rcases List.mem_cons.mp hr with hre | hr'
        · left
          rw [dictGet_dictSet]
          subst hre
          simp [hkey]
        · right
          exact ⟨r, hr', hkey⟩

theorem buildConnCounts_error_of_bad :
    ∀ (rows : List ConnRow) (acc : List (ConnKey × ConnCounts)),
      (∃ r ∈ rows, pyLower r.status ≠ "running" ∧ pyLower r.status ≠ "idle") →
      ∃ r ∈ rows, (pyLower r.status ≠ "running" ∧ pyLower r.status ≠ "idle")
        ∧ buildConnCounts acc rows = Except.error (pyLower r.status) := by
  intro rows
  induction rows with
  | nil =>
    intro acc h
    obtain ⟨r, hr, _⟩ := h
    cases hr
  | cons conn rest ih =>
    intro acc hbad
    by_cases hg : pyLower conn.status = "running" ∨ pyLower conn.status = "idle"
    · have hbadrest : ∃ r ∈ rest, pyLower r.status ≠ "running" ∧ pyLower r.status ≠ "idle" := by
        obtain ⟨r, hr, hb⟩ := hbad
        rcases List.mem_cons.mp hr with hre | hr'
        · subst hre
          rcases hg with h | h
          · exact absurd h hb.1
          · exact absurd h hb.2
        · exact ⟨r, hr', hb⟩
      rcases hg with hst | hst
      · have hupd := updateConnCounts_running acc conn hst
        obtain ⟨r, hr, hb, herr⟩ := ih _ hbadrest
        exact ⟨r, List.mem_cons_of_mem _ hr, hb,
          by simp only [buildConnCounts, hupd]; exact herr⟩
      · have hupd := updateConnCounts_idle acc conn hst
        obtain ⟨r, hr, hb, herr⟩ := ih _ hbadrest
        exact ⟨r, List.mem_cons_of_mem _ hr, hb,
          by simp only [buildConnCounts, hupd]; exact herr⟩
    · push_neg at hg
      exact ⟨conn, List.mem_cons_self _ _, hg,
        by simp only [buildConnCounts, updateConnCounts_error acc conn hg.1 hg.2]⟩

/-- C4: when every connection-overview row has a known status, the mapper
sums each row's total into a per-(db, host, port) counter by lowercased
status and, for each key that occurs in the result set, emits
`connection.running`, `connection.idle`, and `connection.active` with the
active count equal to running plus idle (each computed as the sum of the
matching rows' totals). -/
theorem connection_overview_aggregates (ctx : Ctx) (rows : List ConnRow)
    (hvalid : ∀ r ∈ rows, pyLower r.status = "running" ∨ pyLower r.status = "idle") :
    ∃ gauges, queryConnectionOverview ctx rows = Except.ok gauges
      ∧ ∀ k : ConnKey, (∃ r ∈ rows, connKeyOf r = k) →
          Gauge.mk "connection.running" (sumStatus rows k "running")
              (["db:" ++ k.1, "hana_port:" ++ toString k.2.2] ++ ctx.tags)
              (getHanaHostname ctx (some k.2.1)) ∈ gauges
          ∧ Gauge.mk "connection.idle" (sumStatus rows k "idle")
              (["db:" ++ k.1, "hana_port:" ++ toString k.2.2] ++ ctx.tags)
              (getHanaHostname ctx (some k.2.1)) ∈ gauges
          ∧ Gauge.mk "connection.active" (sumStatus rows k "running" + sumStatus rows k "idle")
              (["db:" ++ k.1, "hana_port:" ++ toString k.2.2] ++ ctx.tags)
              (getHanaHostname ctx (some k.2.1)) ∈ gauges := by
  obtain ⟨out, hout, hk⟩ := buildConnCounts_lookup rows [] hvalid
  refine ⟨out.flatMap (emitConnEntry ctx), by simp only [queryConnectionOverview, hout], ?_⟩
  intro k hkey
  have hpres := buildConnCounts_key_present rows [] out hout k (Or.inr hkey)
  obtain ⟨c, hc⟩ := Option.isSome_iff_exists.mp hpres
  have hmem := dictGet_some_mem out k c hc
  obtain ⟨hr, hi⟩ := hk k
  rw [hc] at hr hi
  simp only [Option.getD_some, dictGet, Option.getD_none, zero_add] at hr hi
  refine ⟨?_, ?_, ?_⟩ <;>
    exact List.mem_flatMap.mpr ⟨(k, c), hmem, by simp [emitConnEntry, hr, hi]⟩

/-- Witness for C4 at the concrete instance from the spec: rows
(db=A, host=h, port=1, status=running, total=3) and
(db=A, host=h, port=1, status=idle, total=2) give an emitted
`connection.active` of running + idle for that key, and 3 + 2 = 5. -/
theorem connection_overview_aggregates_witness :
    (∃ gauges,
      queryConnectionOverview ⟨false, none, []⟩
          [⟨"A", "h", 1, "running", 3⟩, ⟨"A", "h", 1, "idle", 2⟩] = Except.ok gauges
      ∧ Gauge.mk "connection.active"
          (sumStatus [⟨"A", "h", 1, "running", 3⟩, ⟨"A", "h", 1, "idle", 2⟩] ("A", "h", 1) "running"
            + sumStatus [⟨"A", "h", 1, "running", 3⟩, ⟨"A", "h", 1, "idle", 2⟩] ("A", "h", 1) "idle")
          (["db:" ++ "A", "hana_port:" ++ toString (1 : Int)] ++ [])
          (getHanaHostname ⟨false, none, []⟩ (some "h")) ∈ gauges)
    ∧ sumStatus [⟨"A", "h", 1, "running", 3⟩, ⟨"A", "h", 1, "idle", 2⟩] ("A", "h", 1) "running"
        + sumStatus [⟨"A", "h", 1, "running", 3⟩, ⟨"A", "h", 1, "idle", 2⟩] ("A", "h", 1) "idle"
      = 5 := by
  constructor
  · obtain ⟨gauges, hok, hall⟩ :=
      connection_overview_aggregates ⟨false, none, []⟩
        [⟨"A", "h", 1, "running", 3⟩, ⟨"A", "h", 1, "idle", 2⟩] (by decide)
    refine ⟨gauges, hok, ?_⟩
    have hkmem : ∃ r ∈ ([⟨"A", "h", 1, "running", 3⟩,
        ⟨"A", "h", 1, "idle", 2⟩] : List ConnRow), connKeyOf r = (("A", "h", 1) : ConnKey) :=
      ⟨⟨"A", "h", 1, "running", 3⟩, by simp, rfl⟩
    exact (hall ("A", "h", 1) hkmem).2.2
  · rw [sumStatus_cons, sumStatus_cons, sumStatus_cons, sumStatus_cons, sumStatus_nil,
      sumStatus_nil]
    have h1 : pyLower "running" = "running" := by decide
    have h2 : pyLower "idle" = "idle" := by decide
    have h3 : ¬(("idle" : String) = "running") := by decide
    have h4 : ¬(("running" : String) = "idle") := by decide
    norm_num [connKeyOf, h1, h2, h3, h4]

/-- C10: a connection-overview result set containing a row whose lowercased
status is neither `running` nor `idle` makes the whole query raise `KeyError`
on the fixed `\x7b'running', 'idle'\x7d` counter dict: the run returns that
error and no connection gauges are emitted at all. -/
theorem connection_overview_unknown_status_aborts (ctx : Ctx) (rows : List ConnRow)
    (hbad : ∃ r ∈ rows, pyLower r.status ≠ "running" ∧ pyLower r.status ≠ "idle") :
    (∀ gauges, queryConnectionOverview ctx rows ≠ Except.ok gauges)
    ∧ ∃ r ∈ rows, (pyLower r.status ≠ "running" ∧ pyLower r.status ≠ "idle")
        ∧ queryConnectionOverview ctx rows = Except.error (pyLower r.status) := by
  obtain ⟨r, hr, hb, herr⟩ := buildConnCounts_error_of_bad rows [] hbad
  have hq : queryConnectionOverview ctx rows = Except.error (pyLower r.status) := by
    simp only [queryConnectionOverview, herr]
  constructor
  · intro gauges h
    rw [hq] at h
    cases h
  · exact ⟨r, ⟨hr, ⟨hb, hq⟩⟩⟩

/-- Witness for C10 at a concrete instance: one row with status `Weird`
aborts the connection-overview query. -/
theorem connection_overview_unknown_status_aborts_witness :
    (∀ gauges, queryConnectionOverview ⟨true, none, []⟩
        [⟨"A", "h", 1, "Weird", 3⟩] ≠ Except.ok gauges)
    ∧ ∃ r ∈ ([⟨"A", "h", 1, "Weird", 3⟩] : List ConnRow),
        (pyLower r.status ≠ "running" ∧ pyLower r.status ≠ "idle")
        ∧ queryConnectionOverview ⟨true, none, []⟩ [⟨"A", "h", 1, "Weird", 3⟩]
            = Except.error (pyLower r.status) :=
  connection_overview_unknown_status_aborts ⟨true, none, []⟩ [⟨"A", "h", 1, "Weird", 3⟩]
    (by decide)

end SapHana
